import Mathlib

/-!
Shallow embedding of the urshort URL-redirection resolver
(src/uri_mappings.rs, src/environment.rs, src/main.rs) and proofs about it.

Modelling conventions:
- `OsStr` models `std::ffi::OsString`: either valid UTF-8 or not.
- Strings are Lean `String`, manipulated through their character lists;
  positions are character positions (the Rust code only ever slices at the
  length of an ASCII prefix, where byte and character positions agree).
- `Regex` models a compiled `regex::Regex` abstractly by its observable
  behaviour: `find` returns the leftmost match on a haystack, carrying the
  matched character span and the expansion of a replacement template against
  the captures of that match.  `Regex.replace` then mirrors the documented
  behaviour of `regex::Regex::replace` with a string replacer: replace the
  leftmost match only, keep everything else.
- URI parsing (`axum::http::Uri::from_str`) is an external dependency and is
  a parameter `parseUri : String → Option U` of the resolver operations.
- `HashMapS` models `HashMap<String, Uri>` by its lookup function; collecting
  an iterator into a map inserts in iteration order, later entries overwrite.
- In `extract_pattern_uris`, the Rust fold writes `list[x] = y` and panics
  when `x` is out of bounds; `write_slots` returns `none` exactly in that
  case, so `none` models the abort of the configuration-parsing stage.
-/

namespace Urshort

/-- Model of `std::ffi::OsString`: either a valid UTF-8 string or not. -/
inductive OsStr where
  | valid (s : String)
  | invalid
deriving DecidableEq

/-- Model of `OsString::into_string`, which fails on invalid UTF-8. -/
def OsStr.into_string : OsStr → Option String
  | .valid s => some s
  | .invalid => none

/-- Character list of a string. -/
def strChars (s : String) : List Char := s.data

/-- Model of `str::starts_with`. -/
def strStartsWith (s p : String) : Bool := p.data.isPrefixOf s.data

/-- Drop the first `n` characters of a string. -/
def strDrop (s : String) (n : Nat) : String := ⟨s.data.drop n⟩

/-- Take the first `n` characters of a string. -/
def strTake (s : String) (n : Nat) : String := ⟨s.data.take n⟩

/-- Length of a string in characters. -/
def strLen (s : String) : Nat := s.data.length

/-- Model of one leftmost regex match on a fixed haystack: the matched span
`[start, stop)` in character positions, and the expansion of a replacement
template against the capture groups of this match. -/
structure RegexMatch where
  start : Nat
  stop : Nat
  expand : String → String

/-- Model of a compiled `regex::Regex`, abstracted to its observable
behaviour: `find` returns the leftmost match on a haystack, if any. -/
structure Regex where
  find : String → Option RegexMatch

/-- Model of `Regex::is_match`. -/
def Regex.is_match (r : Regex) (s : String) : Bool := (r.find s).isSome

/-- Model of `Regex::replace` with a string replacer: if there is a leftmost
match, replace exactly its span by the expanded template and keep the rest of
the haystack; otherwise return the haystack unchanged. -/
def Regex.replace (r : Regex) (s tmpl : String) : String :=
  match r.find s with
  | none => s
  | some m => strTake s m.start ++ m.expand tmpl ++ strDrop s m.stop

/-- Model of `Regex::new("").unwrap()`, the placeholder regex: the empty
pattern matches the empty span at position 0 of every haystack and has no
capture groups, so template expansion is modelled as the identity. -/
def empty_regex : Regex := ⟨fun _ => some ⟨0, 0, fun t => t⟩⟩

/-- Model of `HashMap<String, U>` by its observable lookup function. -/
def HashMapS (U : Type) : Type := String → Option U

/-- The empty map. -/
def hmEmpty {U : Type} : HashMapS U := fun _ => none

/-- Model of `HashMap::insert`: overwrite the binding of one key. -/
def hmInsert {U : Type} (m : HashMapS U) (k : String) (v : U) : HashMapS U :=
  fun q => if q = k then some v else m q

/-- Fold a list of pairs into a map by repeated insertion. -/
def hmFold {U : Type} (m : HashMapS U) (l : List (String × U)) : HashMapS U :=
  l.foldl (fun m q => hmInsert m q.1 q.2) m

/-- Model of collecting an iterator of pairs into a `HashMap`: insert in
iteration order, so a later entry for a key overwrites an earlier one. -/
def hmCollect {U : Type} (l : List (String × U)) : HashMapS U :=
  hmFold hmEmpty l

/-- Model of the `UriMappings` struct of src/uri_mappings.rs: the exact-match
map and the ordered pattern rule list.  `U` stands for `axum::http::Uri`. -/
structure UriMappings (U : Type) where
  standard : HashMapS U
  pattern : List (Regex × String)

/-- Model of `UriMappings::match_standard`. -/
def UriMappings.match_standard {U : Type} (m : UriMappings U) (parameter : String) :
    Except String U :=
  match m.standard parameter with
  | some x => .ok x
  | none => .error "No standard found"

/-- Outcome of applying one pattern rule whose regex matched: the loop body of
`match_pattern` after the `is_match` guard. -/
def apply_rule {U : Type} (parseUri : String → Option U) (rule : Regex × String)
    (parameter : String) : Except String U :=
  match parseUri (rule.1.replace parameter rule.2) with
  | some new_uri => .ok new_uri
  | none => .error "Pattern did not create URI"

/-- The loop of `UriMappings::match_pattern` over the remaining rules. -/
def match_pattern_go {U : Type} (parseUri : String → Option U) (parameter : String) :
    List (Regex × String) → Except String U
  | [] => .error "No pattern found"
  | rule :: rest =>
    if rule.1.is_match parameter then apply_rule parseUri rule parameter
    else match_pattern_go parseUri parameter rest

/-- Model of `UriMappings::match_pattern`; `parseUri` stands for the ambient
`Uri::from_str`. -/
def UriMappings.match_pattern {U : Type} (m : UriMappings U)
    (parseUri : String → Option U) (parameter : String) : Except String U :=
  match_pattern_go parseUri parameter m.pattern

/-- Model of `UriMappings::match_anything`: standard matches first, then
patterns. -/
def UriMappings.match_anything {U : Type} (m : UriMappings U)
    (parseUri : String → Option U) (parameter : String) : Except String U :=
  match m.match_standard parameter with
  | .ok standard => .ok standard
  | .error _ => m.match_pattern parseUri parameter

/-- Numeric value of a decimal digit character. -/
def digitVal (c : Char) : Option Nat :=
  if c.isDigit then some (c.toNat - 48) else none

/-- Accumulate a decimal digit string into a number; fails on a non-digit. -/
def parseDigitsAux : List Char → Nat → Option Nat
  | [], acc => some acc
  | c :: cs, acc =>
    match digitVal c with
    | some d => parseDigitsAux cs (acc * 10 + d)
    | none => none

/-- Model of Rust `str::parse` for an unsigned integer type with exclusive
upper bound `bound`: an optional leading plus sign, then at least one decimal
digit and nothing else, and the value must fit in the type. -/
def rustParseUnsigned (bound : Nat) (s : String) : Option Nat :=
  let cs :=
    match s.data with
    | '+' :: rest => rest
    | cs => cs
  if cs.isEmpty then none
  else
    match parseDigitsAux cs 0 with
    | some n => if n < bound then some n else none
    | none => none

/-- Model of `str::parse::<u16>`. -/
def parse_u16 (s : String) : Option Nat := rustParseUnsigned (2 ^ 16) s

/-- Model of `str::parse::<usize>` on a 64-bit target. -/
def parse_usize (s : String) : Option Nat := rustParseUnsigned (2 ^ 64) s

/-- The closure of `extract_port_number` (src/environment.rs): a pair yields a
port exactly when both components are valid UTF-8, the key equals the variable
name exactly, and the value parses as a `u16`. -/
def port_entry (name : String) (q : OsStr × OsStr) : Option Nat :=
  match q.1.into_string, q.2.into_string with
  | some x, some y => if x = name then parse_u16 y else none
  | _, _ => none

/-- Model of `extract_port_number` (src/environment.rs): `find_map` over the
pairs, so the first pair that yields a port wins. -/
def extract_port_number (env_vars : List (OsStr × OsStr)) (name : String) :
    Option Nat :=
  env_vars.findSome? (port_entry name)

/-- The closure of `extract_standard_uris` (src/environment.rs): a pair is
accepted when both components are valid UTF-8, the key starts with the prefix
and the value parses as a URI; the stored key is the key with the prefix
stripped. -/
def standard_entry {U : Type} (parseUri : String → Option U) (pre : String)
    (q : OsStr × OsStr) : Option (String × U) :=
  match q.1.into_string, q.2.into_string with
  | some x, some y =>
    if strStartsWith x pre then
      match parseUri y with
      | some u => some (strDrop x (strLen pre), u)
      | none => none
    else none
  | _, _ => none

/-- Model of `extract_standard_uris` (src/environment.rs): filter the accepted
pairs, then collect them into a `HashMap` in iteration order. -/
def extract_standard_uris {U : Type} (parseUri : String → Option U)
    (env_vars : List (OsStr × OsStr)) (pre : String) : HashMapS U :=
  hmCollect (env_vars.filterMap (standard_entry parseUri pre))

/-- The partition predicate of `extract_pattern_uris`: the key is valid UTF-8
and starts with the given prefix. -/
def key_has_pre (pre : String) (q : OsStr × OsStr) : Bool :=
  match q.1.into_string with
  | some x => strStartsWith x pre
  | none => false

/-- First partition of `extract_pattern_uris`: the pairs whose key carries the
uri prefix. -/
def uri_indexed (uriPre : String) (env_vars : List (OsStr × OsStr)) :
    List (OsStr × OsStr) :=
  (env_vars.partition (key_has_pre uriPre)).1

/-- Second partition of `extract_pattern_uris`: among the remaining pairs,
those whose key carries the regex prefix. -/
def regex_indexed (uriPre regexPre : String) (env_vars : List (OsStr × OsStr)) :
    List (OsStr × OsStr) :=
  ((env_vars.partition (key_has_pre uriPre)).2.partition (key_has_pre regexPre)).1

/-- The uri-side `filter_map` of `extract_pattern_uris`: strip the prefix and
parse the remainder as a `usize` index; pairs that fail are dropped. -/
def uri_parsed (uriPre : String) (env_vars : List (OsStr × OsStr)) :
    List (Nat × String) :=
  (uri_indexed uriPre env_vars).filterMap fun q =>
    match q.1.into_string, q.2.into_string with
    | some x, some y =>
      match parse_usize (strDrop x (strLen uriPre)) with
      | some i => some (i, y)
      | none => none
    | _, _ => none

/-- The regex-side `filter_map` of `extract_pattern_uris`: strip the prefix,
parse the remainder as a `usize` index and compile the value as a regex; pairs
that fail either step are dropped.  `compile` models `Regex::from_str`. -/
def regex_parsed (compile : String → Option Regex) (uriPre regexPre : String)
    (env_vars : List (OsStr × OsStr)) : List (Nat × Regex) :=
  (regex_indexed uriPre regexPre env_vars).filterMap fun q =>
    match q.1.into_string, q.2.into_string with
    | some x, some y =>
      match parse_usize (strDrop x (strLen regexPre)), compile y with
      | some i, some r => some (i, r)
      | _, _ => none
    | _, _ => none

/-- Model of the panicking fold of `extract_pattern_uris`: write each parsed
(index, value) into its positional slot; `none` models the index-out-of-bounds
panic of `list[x] = y`. -/
def write_slots {α : Type} (init : List α) (l : List (Nat × α)) : Option (List α) :=
  l.foldlM (fun acc q => if q.1 < acc.length then some (acc.set q.1 q.2) else none) init

/-- The same fold without the bounds check, used to state lemmas about the
successful case of `write_slots`. -/
def write_all {α : Type} (init : List α) (l : List (Nat × α)) : List α :=
  l.foldl (fun acc q => acc.set q.1 q.2) init

/-- The uri-side positional sequence of `extract_pattern_uris`: a vector of
empty-string placeholders sized to the uri partition, with each parsed entry
written into its slot. -/
def uri_slots (uriPre : String) (env_vars : List (OsStr × OsStr)) :
    Option (List String) :=
  write_slots (List.replicate (uri_indexed uriPre env_vars).length "")
    (uri_parsed uriPre env_vars)

/-- The regex-side positional sequence of `extract_pattern_uris`: a vector of
empty-regex placeholders sized to the regex partition, with each parsed entry
written into its slot. -/
def regex_slots (compile : String → Option Regex) (uriPre regexPre : String)
    (env_vars : List (OsStr × OsStr)) : Option (List Regex) :=
  write_slots (List.replicate (regex_indexed uriPre regexPre env_vars).length empty_regex)
    (regex_parsed compile uriPre regexPre env_vars)

/-- Model of `extract_pattern_uris` (src/environment.rs): partition the pairs,
build the two positional sequences, and zip the regex sequence with the uri
sequence; `none` models the panic of either positional fold. -/
def extract_pattern_uris (compile : String → Option Regex)
    (env_vars : List (OsStr × OsStr)) (uriPre regexPre : String) :
    Option (List (Regex × String)) :=
  match uri_slots uriPre env_vars, regex_slots compile uriPre regexPre env_vars with
  | some us, some rs => some (rs.zip us)
  | _, _ => none

/-- The value written into slot `j` by a list of (index, value) entries, if
any: the first entry with index `j`, or the default. -/
def slot_value {α : Type} (l : List (Nat × α)) (j : Nat) (d : α) : α :=
  match (l.filter (fun q => q.1 = j)).head? with
  | some q => q.2
  | none => d

/-- The binding written into slot `j` by a list of (index, value) entries, if
any, with a fallback. -/
def slot_write {α : Type} (l : List (Nat × α)) (j : Nat) (d : Option α) : Option α :=
  match (l.filter (fun q => q.1 = j)).head? with
  | some q => some q.2
  | none => d

/-- A list of (index, value) entries is well indexed for length `n` when the
indices are pairwise distinct and all below `n`. -/
def well_indexed {α : Type} (l : List (Nat × α)) (n : Nat) : Prop :=
  (l.map Prod.fst).Nodup ∧ ∀ q ∈ l, q.1 < n

instance {α : Type} (l : List (Nat × α)) (n : Nat) : Decidable (well_indexed l n) := by
  unfold well_indexed
  infer_instance

/-- The `URSHORT_PORT` constant of src/main.rs. -/
def PORT_ENV_NAME : String := "URSHORT_PORT"

/-- The `DEFAULT_PORT` constant of src/main.rs. -/
def DEFAULT_PORT : Nat := 3000

/-- The port the server uses (src/main.rs): the extracted port when present,
else the default. -/
def server_port (env_vars : List (OsStr × OsStr)) : Nat :=
  (extract_port_number env_vars PORT_ENV_NAME).getD DEFAULT_PORT

/-- The socket address the server binds (src/main.rs line 130): host
`127.0.0.1` and the configured or default port, as
`SocketAddr::from(([127, 0, 0, 1], port))`. -/
def server_address (env_vars : List (OsStr × OsStr)) : (Nat × Nat × Nat × Nat) × Nat :=
  ((127, 0, 0, 1), server_port env_vars)

/-- Modelled from the spec: the listening host the spec describes, namely all
network interfaces, `0.0.0.0`. -/
def all_interfaces : Nat × Nat × Nat × Nat := (0, 0, 0, 0)

/-- A concrete URI parser for witnesses: accepts every string. -/
def accept_all : String → Option String := fun s => some s

/-- A concrete regex for witnesses: matches nothing. -/
def never_regex : Regex := ⟨fun _ => none⟩

/-- A concrete regex for witnesses: matches the whole haystack and expands the
template to itself. -/
def whole_regex : Regex := ⟨fun s => some ⟨0, strLen s, fun t => t⟩⟩

/-- A concrete regex for witnesses: on the haystack `abc` it matches the span
of the middle character only. -/
def middle_regex : Regex :=
  ⟨fun s => if s = "abc" then some ⟨1, 2, fun t => t⟩ else none⟩

/-- A concrete compile function for witnesses: every source compiles to the
empty regex. -/
def sample_compile : String → Option Regex := fun _ => some empty_regex

/-- A concrete URI parser for witnesses: rejects every string. -/
def reject_all : String → Option String := fun _ => none

/-- The loop of match_pattern skips every non-matching rule and resolves at the
first rule whose regex matches, with an outcome independent of the rules after
it. -/
theorem match_pattern_go_append {U : Type} (parseUri : String → Option U)
    (k : String) (pre : List (Regex × String)) (rule : Regex × String)
    (post : List (Regex × String))
    (hpre : ∀ q ∈ pre, q.1.is_match k = false)
    (hrule : rule.1.is_match k = true) :
    match_pattern_go parseUri k (pre ++ rule :: post) = apply_rule parseUri rule k := by
  induction pre with
  | nil => simp [match_pattern_go, hrule]
  | cons q pre ih =>
    have hq : q.1.is_match k = false := hpre q (by simp)
    have : match_pattern_go parseUri k ((q :: pre) ++ rule :: post)
        = match_pattern_go parseUri k (pre ++ rule :: post) := by
      simp [match_pattern_go, hq]
    rw [this]
    exact ih fun p hp => hpre p (by simp [hp])

/-- C1: for every mapping table and every key, match_anything first consults
the exact-match map and returns its target when the key is present — even if
some pattern rule would also match the key — and otherwise returns exactly the
outcome of match_pattern on the same key. -/
theorem match_anything_exact_first {U : Type} (parseUri : String → Option U)
    (m : UriMappings U) (k : String) :
    (∀ u : U, m.standard k = some u → m.match_anything parseUri k = .ok u) ∧
    (m.standard k = none →
      m.match_anything parseUri k = m.match_pattern parseUri k) := by
  constructor
  · intro u h
    simp [UriMappings.match_anything, UriMappings.match_standard, h]
  · intro h
    simp [UriMappings.match_anything, UriMappings.match_standard, h]

/-- Witness for C1 at a concrete table whose pattern rule also matches the
present key `i5`, and at an absent key. -/
theorem match_anything_exact_first_witness :
    (UriMappings.mk (hmInsert hmEmpty "i5" "five")
        [(whole_regex, "T")]).match_anything accept_all "i5" = .ok "five" ∧
    ((UriMappings.mk (hmEmpty : HashMapS String)
        [(whole_regex, "T")]).match_anything accept_all "x"
      = (UriMappings.mk (hmEmpty : HashMapS String)
        [(whole_regex, "T")]).match_pattern accept_all "x") :=
  ⟨(match_anything_exact_first accept_all
      (UriMappings.mk (hmInsert hmEmpty "i5" "five") [(whole_regex, "T")]) "i5").1
      "five" rfl,
   (match_anything_exact_first accept_all
      (UriMappings.mk (hmEmpty : HashMapS String) [(whole_regex, "T")]) "x").2 rfl⟩

/-- C2: for every mapping table and every key, match_pattern applies only the
first rule in sequence order whose regex matches the key: its outcome is that
of this rule alone, independent of every later rule, even when the matching
rule fails to produce a valid URI. -/
theorem match_pattern_first_match_only {U : Type} (parseUri : String → Option U)
    (m : UriMappings U) (k : String) (pre : List (Regex × String))
    (rule : Regex × String) (post : List (Regex × String))
    (hm : m.pattern = pre ++ rule :: post)
    (hpre : ∀ q ∈ pre, q.1.is_match k = false)
    (hrule : rule.1.is_match k = true) :
    m.match_pattern parseUri k = apply_rule parseUri rule k := by
  unfold UriMappings.match_pattern
  rw [hm]
  exact match_pattern_go_append parseUri k pre rule post hpre hrule

/-- Witness for C2 at a concrete table: the first matching rule is applied
under a parser that rejects its substitution, and the rule after it is never
reached. -/
theorem match_pattern_first_match_only_witness :
    (UriMappings.mk (hmEmpty : HashMapS String)
        [(never_regex, "x"), (whole_regex, "T"),
          (whole_regex, "U")]).match_pattern reject_all "k"
      = apply_rule reject_all (whole_regex, "T") "k" :=
  match_pattern_first_match_only reject_all
    (UriMappings.mk (hmEmpty : HashMapS String)
      [(never_regex, "x"), (whole_regex, "T"), (whole_regex, "U")])
    "k" [(never_regex, "x")] (whole_regex, "T") [(whole_regex, "U")]
    rfl (by decide) (by decide)

/-- The two failure messages of match_pattern are distinct. -/
theorem invalid_msg_ne_none_msg :
    ("Pattern did not create URI" : String) ≠ "No pattern found" := by decide

/-- The loop of match_pattern reports the invalid-target failure exactly when
some first matching rule has a substitution that does not parse as a URI. -/
theorem match_pattern_go_invalid_iff {U : Type} (parseUri : String → Option U)
    (k : String) (l : List (Regex × String)) :
    match_pattern_go parseUri k l = .error "Pattern did not create URI" ↔
      ∃ pre rule post, l = pre ++ rule :: post ∧
        (∀ q ∈ pre, q.1.is_match k = false) ∧
        rule.1.is_match k = true ∧
        parseUri (rule.1.replace k rule.2) = none := by
  induction l with
  | nil =>
    constructor
    · intro h
      exact absurd h (by simp [match_pattern_go, invalid_msg_ne_none_msg.symm])
    · rintro ⟨pre, rule, post, h, -⟩
      exact absurd h (by simp)
  | cons q l ih =>
    by_cases hq : q.1.is_match k = true
    · constructor
      · intro h
        refine ⟨[], q, l, rfl, by simp, hq, ?_⟩
        simp only [match_pattern_go, hq, if_true, apply_rule] at h
        cases hp : parseUri (q.1.replace k q.2) with
        | some u => rw [hp] at h; exact absurd h (by simp)
        | none => rfl
      · rintro ⟨pre, rule, post, hl, hpre, hrule, hparse⟩
        cases pre with
        | nil =>
          simp only [List.nil_append, List.cons_eq_cons] at hl
          obtain ⟨rfl, rfl⟩ := hl
          simp [match_pattern_go, hq, apply_rule, hparse]
        | cons p pre =>
          simp only [List.cons_append, List.cons_eq_cons] at hl
          obtain ⟨rfl, rfl⟩ := hl
          have := hpre q (by simp)
          rw [hq] at this
          exact absurd this (by simp)
    · have hq' : q.1.is_match k = false := by
        cases h : q.1.is_match k with
        | true => exact absurd h hq
        | false => rfl
      have hstep : match_pattern_go parseUri k (q :: l)
          = match_pattern_go parseUri k l := by
        simp [match_pattern_go, hq']
      rw [hstep, ih]
      constructor
      · rintro ⟨pre, rule, post, hl, hpre, hrule, hparse⟩
        refine ⟨q :: pre, rule, post, by simp [hl], ?_, hrule, hparse⟩
        intro p hp
        rcases List.mem_cons.mp hp with h | h
        · rw [h]; exact hq'
        · exact hpre p h
      · rintro ⟨pre, rule, post, hl, hpre, hrule, hparse⟩
        cases pre with
        | nil =>
          simp only [List.nil_append, List.cons_eq_cons] at hl
          obtain ⟨rfl, rfl⟩ := hl
          rw [hq'] at hrule
          exact absurd hrule (by simp)
        | cons p pre =>
          simp only [List.cons_append, List.cons_eq_cons] at hl
          obtain ⟨rfl, rfl⟩ := hl
          exact ⟨pre, rule, post, rfl, fun t ht => hpre t (by simp [ht]), hrule, hparse⟩

/-- The loop of match_pattern reports the not-found failure exactly when no
rule matches. -/
theorem match_pattern_go_not_found_iff {U : Type} (parseUri : String → Option U)
    (k : String) (l : List (Regex × String)) :
    match_pattern_go parseUri k l = .error "No pattern found" ↔
      ∀ q ∈ l, q.1.is_match k = false := by
  induction l with
  | nil => simp [match_pattern_go]
  | cons q l ih =>
    by_cases hq : q.1.is_match k = true
    · constructor
      · intro h
        simp only [match_pattern_go, hq, if_true, apply_rule] at h
        cases hp : parseUri (q.1.replace k q.2) with
        | some u => rw [hp] at h; exact absurd h (by simp)
        | none =>
          rw [hp] at h
          simp only [Except.error.injEq] at h
          exact absurd h invalid_msg_ne_none_msg
      · intro h
        have := h q (by simp)
        rw [hq] at this
        exact absurd this (by simp)
    · have hq' : q.1.is_match k = false := by
        cases h : q.1.is_match k with
        | true => exact absurd h hq
        | false => rfl
      have hstep : match_pattern_go parseUri k (q :: l)
          = match_pattern_go parseUri k l := by
        simp [match_pattern_go, hq']
      rw [hstep, ih]
      constructor
      · intro h p hp
        rcases List.mem_cons.mp hp with hh | hh
        · rw [hh]; exact hq'
        · exact h p hh
      · intro h p hp
        exact h p (by simp [hp])

/-- C3: for every mapping table and key, match_pattern signals the
invalid-target failure iff the first rule whose regex matches the key has a
substitution that fails to parse as a URI, signals the not-found failure iff
no rule matches, and the two failure messages are distinct. -/
theorem match_pattern_failure_modes {U : Type} (parseUri : String → Option U)
    (m : UriMappings U) (k : String) :
    (m.match_pattern parseUri k = .error "Pattern did not create URI" ↔
      ∃ pre rule post, m.pattern = pre ++ rule :: post ∧
        (∀ q ∈ pre, q.1.is_match k = false) ∧
        rule.1.is_match k = true ∧
        parseUri (rule.1.replace k rule.2) = none) ∧
    (m.match_pattern parseUri k = .error "No pattern found" ↔
      ∀ q ∈ m.pattern, q.1.is_match k = false) ∧
    ("Pattern did not create URI" : String) ≠ "No pattern found" :=
  ⟨match_pattern_go_invalid_iff parseUri k m.pattern,
   match_pattern_go_not_found_iff parseUri k m.pattern,
   invalid_msg_ne_none_msg⟩

/-- C10: in match_pattern, the substitution replaces only the span of the
leftmost match of the first matching rule and keeps the unmatched portions of
the input: the candidate handed to URI parsing is the input with just the
matched span replaced by the instantiated template, with the prefix before the
match and the suffix after it preserved. -/
theorem match_pattern_replaces_only_matched_span {U : Type}
    (parseUri : String → Option U) (m : UriMappings U) (k : String)
    (pre : List (Regex × String)) (rule : Regex × String)
    (post : List (Regex × String)) (mi : RegexMatch)
    (hm : m.pattern = pre ++ rule :: post)
    (hpre : ∀ q ∈ pre, q.1.is_match k = false)
    (hfind : rule.1.find k = some mi)
    (_hspan : 0 < mi.start ∨ mi.stop < strLen k) :
    m.match_pattern parseUri k =
      match parseUri (strTake k mi.start ++ mi.expand rule.2 ++ strDrop k mi.stop) with
      | some u => Except.ok u
      | none => Except.error "Pattern did not create URI" := by
  have hmatch : rule.1.is_match k = true := by simp [Regex.is_match, hfind]
  unfold UriMappings.match_pattern
  rw [hm, match_pattern_go_append parseUri k pre rule post hpre hmatch]
  unfold apply_rule Regex.replace
  rw [hfind]

/-- Witness for C10 at a concrete table: a rule matching only the middle
character of `abc` yields the candidate `aXc`, with the unmatched `a` and `c`
preserved. -/
theorem match_pattern_replaces_only_matched_span_witness :
    (UriMappings.mk (hmEmpty : HashMapS String)
        [(middle_regex, "X")]).match_pattern accept_all "abc" = .ok "aXc" := by
  rw [match_pattern_replaces_only_matched_span accept_all
    (UriMappings.mk (hmEmpty : HashMapS String) [(middle_regex, "X")]) "abc"
    [] (middle_regex, "X") [] ⟨1, 2, fun t => t⟩
    rfl (by simp) rfl (Or.inl (by decide))]
  rfl

/-- One insertion step of the map fold. -/
theorem hmFold_cons {U : Type} (m : HashMapS U) (q : String × U)
    (l : List (String × U)) : hmFold m (q :: l) = hmFold (hmInsert m q.1 q.2) l := rfl

/-- The map fold over an append folds the second part over the result of the
first. -/
theorem hmFold_append {U : Type} (m : HashMapS U) (l l' : List (String × U)) :
    hmFold m (l ++ l') = hmFold (hmFold m l) l' := by
  unfold hmFold
  exact List.foldl_append _ _ _ _

/-- Folding pairs whose keys all differ from `k` leaves the binding of `k`
unchanged. -/
theorem hmFold_no_key {U : Type} (m : HashMapS U) (l : List (String × U))
    (k : String) (h : ∀ q ∈ l, q.1 ≠ k) : hmFold m l k = m k := by
  induction l generalizing m with
  | nil => rfl
  | cons q l ih =>
    rw [hmFold_cons, ih (hmInsert m q.1 q.2) fun p hp => h p (by simp [hp])]
    have hne : ¬(k = q.1) := fun hk => h q (by simp) hk.symm
    simp [hmInsert, hne]

/-- C7: in extract_standard_uris, when two accepted configuration pairs yield
the same lookup key, the entry encountered later in iteration order determines
the stored URI: if the accepted pair stream is any split with two entries for
key `k` and no later entry for `k`, the lookup of `k` returns the later value. -/
theorem extract_standard_uris_last_write_wins {U : Type}
    (parseUri : String → Option U) (env_vars : List (OsStr × OsStr))
    (pre : String) (k : String) (v₁ v₂ : U)
    (l₁ l₂ l₃ : List (String × U))
    (hsplit : env_vars.filterMap (standard_entry parseUri pre)
      = l₁ ++ (k, v₁) :: l₂ ++ (k, v₂) :: l₃)
    (hlast : ∀ q ∈ l₃, q.1 ≠ k) :
    extract_standard_uris parseUri env_vars pre k = some v₂ := by
  unfold extract_standard_uris hmCollect
  rw [hsplit]
  have hassoc : l₁ ++ (k, v₁) :: l₂ ++ (k, v₂) :: l₃
      = (l₁ ++ (k, v₁) :: l₂) ++ (k, v₂) :: l₃ := by simp
  rw [hassoc, hmFold_append, hmFold_cons,
    hmFold_no_key _ l₃ k hlast]
  simp [hmInsert]

/-- Witness for C7 at a concrete pair stream with a duplicated key `a`: the
later value wins. -/
theorem extract_standard_uris_last_write_wins_witness :
    extract_standard_uris accept_all
      [(OsStr.valid "Sa", OsStr.valid "u1"), (OsStr.valid "Sa", OsStr.valid "u2")]
      "S" "a" = some "u2" :=
  extract_standard_uris_last_write_wins accept_all
    [(OsStr.valid "Sa", OsStr.valid "u1"), (OsStr.valid "Sa", OsStr.valid "u2")]
    "S" "a" "u1" "u2" [] [] [] (by decide) (by decide)

/-- C8: extract_port_number returns the first value in iteration order whose
key equals the variable name exactly and whose value parses as a `u16`,
skipping earlier pairs that yield nothing; it returns nothing exactly when no
pair yields a port; and on the same duplicated-key stream the exact-match map
takes the last value while the port takes the first. -/
theorem extract_port_number_first_parseable (env_vars : List (OsStr × OsStr))
    (name : String) :
    (∀ p : Nat, extract_port_number env_vars name = some p ↔
      ∃ l₁ x y l₂, env_vars = l₁ ++ (OsStr.valid x, OsStr.valid y) :: l₂ ∧
        (∀ q ∈ l₁, port_entry name q = none) ∧
        x = name ∧ parse_u16 y = some p) ∧
    (extract_port_number env_vars name = none ↔
      ∀ q ∈ env_vars, port_entry name q = none) ∧
    (extract_port_number
        [(OsStr.valid "P", OsStr.valid "8080"), (OsStr.valid "P", OsStr.valid "8000")]
        "P" = some 8080 ∧
      extract_standard_uris accept_all
        [(OsStr.valid "P", OsStr.valid "8080"), (OsStr.valid "P", OsStr.valid "8000")]
        "" "P" = some "8000") := by
  refine ⟨?_, ?_, by decide, by decide⟩
  case refine_2 =>
    unfold extract_port_number
    exact List.findSome?_eq_none_iff
  · intro p
    induction env_vars with
    | nil =>
      constructor
      · intro h
        exact absurd h (by simp [extract_port_number])
      · rintro ⟨l₁, x, y, l₂, h, -⟩
        exact absurd h (by simp)
    | cons q env ih =>
      cases hq : port_entry name q with
      | some b =>
        have hstep : extract_port_number (q :: env) name = some b := by
          simp [extract_port_number, List.findSome?_cons, hq]
        rw [hstep]
        constructor
        · intro h
          simp only [Option.some.injEq] at h
          subst h
          obtain ⟨x, y⟩ := q
          cases x with
          | invalid => exact absurd hq (by simp [port_entry, OsStr.into_string])
          | valid sx =>
            cases y with
            | invalid => exact absurd hq (by simp [port_entry, OsStr.into_string])
            | valid sy =>
              by_cases hx : sx = name
              · refine ⟨[], sx, sy, env, by simp, by simp, hx, ?_⟩
                simpa [port_entry, OsStr.into_string, hx] using hq
              · exact absurd hq (by simp [port_entry, OsStr.into_string, hx])
        · rintro ⟨l₁, x, y, l₂, hl, hnone, hx, hy⟩
          cases l₁ with
          | nil =>
            simp only [List.nil_append, List.cons_eq_cons] at hl
            obtain ⟨rfl, rfl⟩ := hl
            have : port_entry name (OsStr.valid x, OsStr.valid y) = some p := by
              simp [port_entry, OsStr.into_string, hx, hy]
            rw [hq] at this
            simpa using this
          | cons q' l₁ =>
            simp only [List.cons_append, List.cons_eq_cons] at hl
            obtain ⟨rfl, rfl⟩ := hl
            have := hnone q (by simp)
            rw [hq] at this
            exact absurd this (by simp)
      | none =>
        have hstep : extract_port_number (q :: env) name
            = extract_port_number env name := by
          simp [extract_port_number, List.findSome?_cons, hq]
        rw [hstep, ih]
        constructor
        · rintro ⟨l₁, x, y, l₂, hl, hnone, hx, hy⟩
          refine ⟨q :: l₁, x, y, l₂, by simp [hl], ?_, hx, hy⟩
          intro t ht
          rcases List.mem_cons.mp ht with h | h
          · rw [h]; exact hq
          · exact hnone t h
        · rintro ⟨l₁, x, y, l₂, hl, hnone, hx, hy⟩
          cases l₁ with
          | nil =>
            simp only [List.nil_append, List.cons_eq_cons] at hl
            obtain ⟨rfl, rfl⟩ := hl
            have : port_entry name (OsStr.valid x, OsStr.valid y) = some p := by
              simp [port_entry, OsStr.into_string, hx, hy]
            rw [hq] at this
            exact absurd this (by simp)
          | cons q' l₁ =>
            simp only [List.cons_append, List.cons_eq_cons] at hl
            obtain ⟨rfl, rfl⟩ := hl
            exact ⟨l₁, x, y, l₂, rfl, fun t ht => hnone t (by simp [ht]), hx, hy⟩

/-- C9 counterexample: the server binds the loopback host `127.0.0.1`, not all
network interfaces, already on the empty configuration. -/
theorem server_address_not_all_interfaces :
    (server_address []).1 ≠ all_interfaces ∧
      (server_address []).1 = (127, 0, 0, 1) ∧ (server_address []).2 = 3000 := by
  refine ⟨?_, rfl, rfl⟩
  intro h
  simp [server_address, all_interfaces] at h

/-- C9 amended: the server binds the loopback host `127.0.0.1`, using the port
extracted from configuration when one is present and parseable, and the
documented default port 3000 otherwise. -/
theorem server_address_loopback_and_port (env_vars : List (OsStr × OsStr)) :
    (server_address env_vars).1 = (127, 0, 0, 1) ∧
    (∀ p, extract_port_number env_vars PORT_ENV_NAME = some p →
      (server_address env_vars).2 = p) ∧
    (extract_port_number env_vars PORT_ENV_NAME = none →
      (server_address env_vars).2 = DEFAULT_PORT) := by
  refine ⟨rfl, ?_, ?_⟩
  · intro p h
    simp [server_address, server_port, h]
  · intro h
    simp [server_address, server_port, h]

/-- Witness for the amended C9 at a configured port and at the empty
configuration. -/
theorem server_address_loopback_and_port_witness :
    (server_address [(OsStr.valid "URSHORT_PORT", OsStr.valid "8080")]).2 = 8080 ∧
      (server_address []).2 = DEFAULT_PORT :=
  ⟨(server_address_loopback_and_port
      [(OsStr.valid "URSHORT_PORT", OsStr.valid "8080")]).2.1 8080 (by decide),
   (server_address_loopback_and_port []).2.2 (by decide)⟩

/-- If every index is in bounds, the panicking fold succeeds and computes the
unchecked fold. -/
theorem write_slots_eq_write_all {α : Type} (init : List α) (l : List (Nat × α))
    (h : ∀ q ∈ l, q.1 < init.length) :
    write_slots init l = some (write_all init l) := by
  induction l generalizing init with
  | nil => rfl
  | cons q l ih =>
    have hq : q.1 < init.length := h q (by simp)
    have hstep : write_slots init (q :: l) = write_slots (init.set q.1 q.2) l := by
      simp [write_slots, List.foldlM_cons, hq]
    have hall : write_all init (q :: l) = write_all (init.set q.1 q.2) l := rfl
    rw [hstep, hall]
    exact ih (init.set q.1 q.2) fun p hp => by
      rw [List.length_set]; exact h p (by simp [hp])

/-- A successful panicking fold preserves the allocated length. -/
theorem write_slots_length {α : Type} (init : List α) (l : List (Nat × α))
    (out : List α) (h : write_slots init l = some out) : out.length = init.length := by
  induction l generalizing init with
  | nil =>
    have : init = out := by simpa [write_slots] using h
    rw [← this]
  | cons q l ih =>
    by_cases hq : q.1 < init.length
    · have hstep : write_slots init (q :: l) = write_slots (init.set q.1 q.2) l := by
        simp [write_slots, List.foldlM_cons, hq]
      rw [hstep] at h
      have := ih (init.set q.1 q.2) h
      rwa [List.length_set] at this
    · exfalso
      have hstep : write_slots init (q :: l) = none := by
        simp [write_slots, List.foldlM_cons, hq]
      rw [hstep] at h
      exact absurd h (by simp)

/-- A slot never written by a successful panicking fold keeps its initial
value. -/
theorem write_slots_not_written {α : Type} (init : List α) (l : List (Nat × α))
    (out : List α) (j : Nat) (h : write_slots init l = some out)
    (hj : j ∉ l.map Prod.fst) : out[j]? = init[j]? := by
  induction l generalizing init with
  | nil =>
    have : init = out := by simpa [write_slots] using h
    rw [← this]
  | cons q l ih =>
    by_cases hq : q.1 < init.length
    · have hstep : write_slots init (q :: l) = write_slots (init.set q.1 q.2) l := by
        simp [write_slots, List.foldlM_cons, hq]
      rw [hstep] at h
      have hne : q.1 ≠ j := fun e => hj (by simp [← e])
      have hj' : j ∉ l.map Prod.fst := fun hm => hj (by simp [hm])
      rw [ih (init.set q.1 q.2) h hj', List.getElem?_set_ne hne]
    · exfalso
      have hstep : write_slots init (q :: l) = none := by
        simp [write_slots, List.foldlM_cons, hq]
      rw [hstep] at h
      exact absurd h (by simp)

/-- Elementwise description of the unchecked fold under distinct, in-bounds
indices: slot j holds the value declared for index j, or its initial value. -/
theorem write_all_getElem? {α : Type} (init : List α) (l : List (Nat × α))
    (hnodup : (l.map Prod.fst).Nodup) (hbound : ∀ q ∈ l, q.1 < init.length)
    (j : Nat) : (write_all init l)[j]? = slot_write l j (init[j]?) := by
  induction l generalizing init with
  | nil => rfl
  | cons q l ih =>
    have hcons : (q.1 :: l.map Prod.fst).Nodup := by simpa using hnodup
    obtain ⟨hq_not, hnodup'⟩ := List.nodup_cons.mp hcons
    have hall : write_all init (q :: l) = write_all (init.set q.1 q.2) l := rfl
    rw [hall, ih (init.set q.1 q.2) hnodup' fun p hp => by
      rw [List.length_set]; exact hbound p (by simp [hp])]
    by_cases hji : q.1 = j
    · subst hji
      have hfilter : l.filter (fun p => p.1 = q.1) = [] := by
        rw [List.filter_eq_nil_iff]
        intro a ha
        simp only [decide_eq_true_eq]
        intro e
        exact hq_not (by rw [← e]; exact List.mem_map_of_mem Prod.fst ha)
      have hset : (init.set q.1 q.2)[q.1]? = some q.2 :=
        List.getElem?_set_self (hbound q (by simp))
      simp [slot_write, hfilter, List.filter_cons, hset]
    · have hset : (init.set q.1 q.2)[j]? = init[j]? := List.getElem?_set_ne hji
      have hfilter : (q :: l).filter (fun p => p.1 = j)
          = l.filter (fun p => p.1 = j) := by
        simp [List.filter_cons, hji]
      simp [slot_write, hfilter, hset]

/-- The bindings of one slot are the same for any permutation of the entries,
provided the indices are pairwise distinct. -/
theorem filter_key_eq_of_perm {α : Type} {l₁ l₂ : List (Nat × α)}
    (h : l₁.Perm l₂) (hnodup : (l₁.map Prod.fst).Nodup) (j : Nat) :
    l₁.filter (fun q => q.1 = j) = l₂.filter (fun q => q.1 = j) := by
  have hperm := h.filter (fun q => decide (q.1 = j))
  cases hf : l₁.filter (fun q => q.1 = j) with
  | nil =>
    rw [hf] at hperm
    exact (hperm.symm.eq_nil).symm
  | cons a t =>
    cases t with
    | nil =>
      rw [hf] at hperm
      exact List.singleton_perm.mp hperm
    | cons b t' =>
      exfalso
      have hsub : (l₁.filter (fun q => q.1 = j)).Sublist l₁ := List.filter_sublist l₁
      have hnd : ((l₁.filter (fun q => q.1 = j)).map Prod.fst).Nodup :=
        List.Nodup.sublist (hsub.map Prod.fst) hnodup
      have ha : a ∈ l₁.filter (fun q => q.1 = j) := by rw [hf]; simp
      have hb : b ∈ l₁.filter (fun q => q.1 = j) := by rw [hf]; simp
      have ha' : a.1 = j := by simpa using List.of_mem_filter ha
      have hb' : b.1 = j := by simpa using List.of_mem_filter hb
      rw [hf] at hnd
      simp only [List.map_cons, List.nodup_cons, List.mem_cons] at hnd
      exact hnd.1 (Or.inl (by rw [ha', hb']))

/-- The unchecked fold is permutation-invariant in its entry list when the
indices are pairwise distinct and in bounds. -/
theorem write_all_perm {α : Type} (init : List α) {l₁ l₂ : List (Nat × α)}
    (h : l₁.Perm l₂) (hnodup : (l₁.map Prod.fst).Nodup)
    (hbound : ∀ q ∈ l₁, q.1 < init.length) :
    write_all init l₁ = write_all init l₂ := by
  have hnodup₂ : (l₂.map Prod.fst).Nodup := (h.map Prod.fst).nodup_iff.mp hnodup
  have hbound₂ : ∀ q ∈ l₂, q.1 < init.length := fun q hq => hbound q (h.mem_iff.mpr hq)
  apply List.ext_getElem?
  intro j
  rw [write_all_getElem? init l₁ hnodup hbound j,
    write_all_getElem? init l₂ hnodup₂ hbound₂ j]
  unfold slot_write
  rw [filter_key_eq_of_perm h hnodup j]

/-- C4 counterexample: a single pattern-uri pair declaring index 5 makes the
configuration-parsing stage abort (the modelled index-out-of-bounds panic)
instead of returning a result. -/
theorem extract_pattern_uris_aborts_on_sparse_index :
    extract_pattern_uris sample_compile
      [(OsStr.valid "U5", OsStr.valid "v")] "U" "R" = none := rfl

/-- C4 amended: the configuration-parsing stage drops malformed entries and
returns normally, provided every declared pattern index is below the number of
pairs carrying the corresponding prefix; extract_standard_uris and
extract_port_number are total by construction. -/
theorem extract_pattern_uris_total_when_bounded (compile : String → Option Regex)
    (env_vars : List (OsStr × OsStr)) (uriPre regexPre : String)
    (hu : ∀ q ∈ uri_parsed uriPre env_vars,
      q.1 < (uri_indexed uriPre env_vars).length)
    (hr : ∀ q ∈ regex_parsed compile uriPre regexPre env_vars,
      q.1 < (regex_indexed uriPre regexPre env_vars).length) :
    ∃ out, extract_pattern_uris compile env_vars uriPre regexPre = some out := by
  have h1 : uri_slots uriPre env_vars
      = some (write_all (List.replicate (uri_indexed uriPre env_vars).length "")
        (uri_parsed uriPre env_vars)) := by
    unfold uri_slots
    exact write_slots_eq_write_all _ _ fun q hq => by
      rw [List.length_replicate]; exact hu q hq
  have h2 : regex_slots compile uriPre regexPre env_vars
      = some (write_all
        (List.replicate (regex_indexed uriPre regexPre env_vars).length empty_regex)
        (regex_parsed compile uriPre regexPre env_vars)) := by
    unfold regex_slots
    exact write_slots_eq_write_all _ _ fun q hq => by
      rw [List.length_replicate]; exact hr q hq
  unfold extract_pattern_uris
  rw [h1, h2]
  exact ⟨_, rfl⟩

/-- Witness for the amended C4 at a concrete configuration containing a
malformed index, a key of invalid UTF-8, and in-bounds declared indices. -/
theorem extract_pattern_uris_total_when_bounded_witness :
    ∃ out, extract_pattern_uris sample_compile
      [(OsStr.valid "Ux", OsStr.valid "v"), (OsStr.valid "U0", OsStr.valid "v0"),
        (OsStr.valid "R0", OsStr.valid "re"), (OsStr.invalid, OsStr.valid "z")]
      "U" "R" = some out :=
  extract_pattern_uris_total_when_bounded sample_compile
    [(OsStr.valid "Ux", OsStr.valid "v"), (OsStr.valid "U0", OsStr.valid "v0"),
      (OsStr.valid "R0", OsStr.valid "re"), (OsStr.invalid, OsStr.valid "z")]
    "U" "R" (by decide) (by decide)

/-- The unchecked fold preserves the allocated length. -/
theorem write_all_length {α : Type} (init : List α) (l : List (Nat × α)) :
    (write_all init l).length = init.length := by
  induction l generalizing init with
  | nil => rfl
  | cons q l ih =>
    have hstep : write_all init (q :: l) = write_all (init.set q.1 q.2) l := rfl
    rw [hstep, ih, List.length_set]

/-- C6 counterexample: with one prefix-carrying pair whose index does not
parse and one that does, the positional sequence is allocated at length 2, the
count of prefix-carrying pairs, not at length 1, the count of pairs surviving
index parsing. -/
theorem uri_slots_not_sized_to_parsed_count :
    (uri_slots "U"
        [(OsStr.valid "Ux", OsStr.valid "v"), (OsStr.valid "U0", OsStr.valid "w")]).map
        List.length
      ≠ some (uri_parsed "U"
        [(OsStr.valid "Ux", OsStr.valid "v"), (OsStr.valid "U0", OsStr.valid "w")]).length ∧
    uri_slots "U" [(OsStr.valid "Ux", OsStr.valid "v"), (OsStr.valid "U0", OsStr.valid "w")]
      = some ["w", ""] ∧
    (uri_parsed "U"
      [(OsStr.valid "Ux", OsStr.valid "v"), (OsStr.valid "U0", OsStr.valid "w")]).length
      = 1 := by
  refine ⟨by decide, by decide, by decide⟩

/-- C6 amended: the two positional sequences are allocated sized to the count
of pairs carrying the respective prefix (before index parsing and regex
compilation), initially filled with placeholder values, and every slot no
parsed entry is written into still holds its placeholder. -/
theorem pattern_slots_sized_to_partition (compile : String → Option Regex)
    (env_vars : List (OsStr × OsStr)) (uriPre regexPre : String)
    (out_u : List String) (out_r : List Regex)
    (h_u : uri_slots uriPre env_vars = some out_u)
    (h_r : regex_slots compile uriPre regexPre env_vars = some out_r) :
    (out_u.length = (uri_indexed uriPre env_vars).length ∧
      ∀ j, j < out_u.length → j ∉ (uri_parsed uriPre env_vars).map Prod.fst →
        out_u[j]? = some "") ∧
    (out_r.length = (regex_indexed uriPre regexPre env_vars).length ∧
      ∀ j, j < out_r.length →
        j ∉ (regex_parsed compile uriPre regexPre env_vars).map Prod.fst →
        out_r[j]? = some empty_regex) := by
  have hlu : out_u.length = (uri_indexed uriPre env_vars).length := by
    have := write_slots_length _ _ _ h_u
    rwa [List.length_replicate] at this
  have hlr : out_r.length = (regex_indexed uriPre regexPre env_vars).length := by
    have := write_slots_length _ _ _ h_r
    rwa [List.length_replicate] at this
  refine ⟨⟨hlu, ?_⟩, ⟨hlr, ?_⟩⟩
  · intro j hj hnw
    rw [write_slots_not_written _ _ _ _ h_u hnw, List.getElem?_replicate,
      if_pos (by rw [← hlu]; exact hj)]
  · intro j hj hnw
    rw [write_slots_not_written _ _ _ _ h_r hnw, List.getElem?_replicate,
      if_pos (by rw [← hlr]; exact hj)]

/-- Witness for the amended C6 at a concrete configuration: the uri sequence
has the partition count 2 as its length and keeps the placeholder in its
unwritten slot 1. -/
theorem pattern_slots_sized_to_partition_witness :
    (["w", ""] : List String).length
        = (uri_indexed "U"
          [(OsStr.valid "Ux", OsStr.valid "v"), (OsStr.valid "U0", OsStr.valid "w")]).length ∧
      (["w", ""] : List String)[1]? = some "" :=
  ⟨(pattern_slots_sized_to_partition sample_compile
      [(OsStr.valid "Ux", OsStr.valid "v"), (OsStr.valid "U0", OsStr.valid "w")]
      "U" "R" ["w", ""] [] (by decide) rfl).1.1,
   (pattern_slots_sized_to_partition sample_compile
      [(OsStr.valid "Ux", OsStr.valid "v"), (OsStr.valid "U0", OsStr.valid "w")]
      "U" "R" ["w", ""] [] (by decide) rfl).1.2 1 (by decide) (by decide)⟩

/-- The uri partition is permutation-invariant as a multiset. -/
theorem uri_indexed_perm (uriPre : String) {e₁ e₂ : List (OsStr × OsStr)}
    (h : e₁.Perm e₂) : (uri_indexed uriPre e₁).Perm (uri_indexed uriPre e₂) := by
  unfold uri_indexed
  simp only [List.partition_eq_filter_filter]
  exact h.filter _

/-- The regex partition is permutation-invariant as a multiset. -/
theorem regex_indexed_perm (uriPre regexPre : String) {e₁ e₂ : List (OsStr × OsStr)}
    (h : e₁.Perm e₂) :
    (regex_indexed uriPre regexPre e₁).Perm (regex_indexed uriPre regexPre e₂) := by
  unfold regex_indexed
  simp only [List.partition_eq_filter_filter]
  exact (h.filter _).filter _

/-- The parsed uri entries are permutation-invariant as a multiset. -/
theorem uri_parsed_perm (uriPre : String) {e₁ e₂ : List (OsStr × OsStr)}
    (h : e₁.Perm e₂) : (uri_parsed uriPre e₁).Perm (uri_parsed uriPre e₂) := by
  unfold uri_parsed
  exact List.Perm.filterMap _ (uri_indexed_perm uriPre h)

/-- The parsed regex entries are permutation-invariant as a multiset. -/
theorem regex_parsed_perm (compile : String → Option Regex) (uriPre regexPre : String)
    {e₁ e₂ : List (OsStr × OsStr)} (h : e₁.Perm e₂) :
    (regex_parsed compile uriPre regexPre e₁).Perm
      (regex_parsed compile uriPre regexPre e₂) := by
  unfold regex_parsed
  exact List.Perm.filterMap _ (regex_indexed_perm uriPre regexPre h)

/-- Writing into a present slot relates the two slot descriptions. -/
theorem slot_write_some {α : Type} (l : List (Nat × α)) (j : Nat) (d : α) :
    slot_write l j (some d) = some (slot_value l j d) := by
  unfold slot_write slot_value
  cases hh : (l.filter (fun q => q.1 = j)).head? <;> rfl

/-- C5: under well-formed declared indices, extract_pattern_uris is
order-independent in its input: every permutation of the configuration pairs
yields the same result, and the resulting sequence is ordered by the declared
numeric index, slot j holding the regex and template declared for index j. -/
theorem extract_pattern_uris_ordered_by_index (compile : String → Option Regex)
    (env_vars : List (OsStr × OsStr)) (uriPre regexPre : String)
    (hu : well_indexed (uri_parsed uriPre env_vars)
      (uri_indexed uriPre env_vars).length)
    (hr : well_indexed (regex_parsed compile uriPre regexPre env_vars)
      (regex_indexed uriPre regexPre env_vars).length) :
    (∀ env', env'.Perm env_vars →
      extract_pattern_uris compile env' uriPre regexPre
        = extract_pattern_uris compile env_vars uriPre regexPre) ∧
    (∃ out, extract_pattern_uris compile env_vars uriPre regexPre = some out ∧
      out.length = min (regex_indexed uriPre regexPre env_vars).length
          (uri_indexed uriPre env_vars).length ∧
      ∀ j, j < out.length →
        out[j]? = some
          (slot_value (regex_parsed compile uriPre regexPre env_vars) j empty_regex,
            slot_value (uri_parsed uriPre env_vars) j "")) := by
  have hub : ∀ q ∈ uri_parsed uriPre env_vars,
      q.1 < (List.replicate (uri_indexed uriPre env_vars).length ("" : String)).length := by
    intro q hq
    rw [List.length_replicate]
    exact hu.2 q hq
  have hrb : ∀ q ∈ regex_parsed compile uriPre regexPre env_vars,
      q.1 < (List.replicate (regex_indexed uriPre regexPre env_vars).length
        empty_regex).length := by
    intro q hq
    rw [List.length_replicate]
    exact hr.2 q hq
  have h1 : uri_slots uriPre env_vars
      = some (write_all (List.replicate (uri_indexed uriPre env_vars).length "")
        (uri_parsed uriPre env_vars)) :=
    write_slots_eq_write_all _ _ hub
  have h2 : regex_slots compile uriPre regexPre env_vars
      = some (write_all
        (List.replicate (regex_indexed uriPre regexPre env_vars).length empty_regex)
        (regex_parsed compile uriPre regexPre env_vars)) :=
    write_slots_eq_write_all _ _ hrb
  constructor
  · intro env' hperm
    have hpu : (uri_parsed uriPre env').Perm (uri_parsed uriPre env_vars) :=
      uri_parsed_perm uriPre hperm
    have hpr : (regex_parsed compile uriPre regexPre env').Perm
        (regex_parsed compile uriPre regexPre env_vars) :=
      regex_parsed_perm compile uriPre regexPre hperm
    have hlu : (uri_indexed uriPre env').length = (uri_indexed uriPre env_vars).length :=
      (uri_indexed_perm uriPre hperm).length_eq
    have hlr : (regex_indexed uriPre regexPre env').length
        = (regex_indexed uriPre regexPre env_vars).length :=
      (regex_indexed_perm uriPre regexPre hperm).length_eq
    have hnu : ((uri_parsed uriPre env').map Prod.fst).Nodup :=
      ((hpu.map Prod.fst).nodup_iff).mpr hu.1
    have hnr : ((regex_parsed compile uriPre regexPre env').map Prod.fst).Nodup :=
      ((hpr.map Prod.fst).nodup_iff).mpr hr.1
    have hub' : ∀ q ∈ uri_parsed uriPre env',
        q.1 < (List.replicate (uri_indexed uriPre env_vars).length ("" : String)).length := by
      intro q hq
      rw [List.length_replicate]
      exact hu.2 q (hpu.mem_iff.mp hq)
    have hrb' : ∀ q ∈ regex_parsed compile uriPre regexPre env',
        q.1 < (List.replicate (regex_indexed uriPre regexPre env_vars).length
          empty_regex).length := by
      intro q hq
      rw [List.length_replicate]
      exact hr.2 q (hpr.mem_iff.mp hq)
    have h1' : uri_slots uriPre env'
        = some (write_all (List.replicate (uri_indexed uriPre env_vars).length "")
          (uri_parsed uriPre env')) := by
      unfold uri_slots
      rw [hlu]
      exact write_slots_eq_write_all _ _ hub'
    have h2' : regex_slots compile uriPre regexPre env'
        = some (write_all
          (List.replicate (regex_indexed uriPre regexPre env_vars).length empty_regex)
          (regex_parsed compile uriPre regexPre env')) := by
      unfold regex_slots
      rw [hlr]
      exact write_slots_eq_write_all _ _ hrb'
    have heq_u : write_all (List.replicate (uri_indexed uriPre env_vars).length "")
        (uri_parsed uriPre env')
        = write_all (List.replicate (uri_indexed uriPre env_vars).length "")
          (uri_parsed uriPre env_vars) :=
      write_all_perm _ hpu hnu hub'
    have heq_r : write_all
        (List.replicate (regex_indexed uriPre regexPre env_vars).length empty_regex)
        (regex_parsed compile uriPre regexPre env')
        = write_all
          (List.replicate (regex_indexed uriPre regexPre env_vars).length empty_regex)
          (regex_parsed compile uriPre regexPre env_vars) :=
      write_all_perm _ hpr hnr hrb'
    unfold extract_pattern_uris
    rw [h1, h2, h1', h2', heq_u, heq_r]
  · refine ⟨(write_all
        (List.replicate (regex_indexed uriPre regexPre env_vars).length empty_regex)
        (regex_parsed compile uriPre regexPre env_vars)).zip
        (write_all (List.replicate (uri_indexed uriPre env_vars).length "")
          (uri_parsed uriPre env_vars)), ?_, ?_, ?_⟩
    · unfold extract_pattern_uris
      rw [h1, h2]
    · rw [List.length_zip, write_all_length, write_all_length,
        List.length_replicate, List.length_replicate]
    · intro j hj
      rw [List.length_zip, lt_inf_iff] at hj
      obtain ⟨hjr, hju⟩ := hj
      have hjr' : j < (regex_indexed uriPre regexPre env_vars).length := by
        rw [write_all_length, List.length_replicate] at hjr
        exact hjr
      have hju' : j < (uri_indexed uriPre env_vars).length := by
        rw [write_all_length, List.length_replicate] at hju
        exact hju
      have hR : (write_all
          (List.replicate (regex_indexed uriPre regexPre env_vars).length empty_regex)
          (regex_parsed compile uriPre regexPre env_vars))[j]?
          = some (slot_value (regex_parsed compile uriPre regexPre env_vars) j
            empty_regex) := by
        rw [write_all_getElem? _ _ hr.1 hrb j, List.getElem?_replicate, if_pos hjr',
          slot_write_some]
      have hU : (write_all (List.replicate (uri_indexed uriPre env_vars).length "")
          (uri_parsed uriPre env_vars))[j]?
          = some (slot_value (uri_parsed uriPre env_vars) j "") := by
        rw [write_all_getElem? _ _ hu.1 hub j, List.getElem?_replicate, if_pos hju',
          slot_write_some]
      have hjz : j < ((write_all
          (List.replicate (regex_indexed uriPre regexPre env_vars).length empty_regex)
          (regex_parsed compile uriPre regexPre env_vars)).zip
          (write_all (List.replicate (uri_indexed uriPre env_vars).length "")
            (uri_parsed uriPre env_vars))).length := by
        rw [List.length_zip, lt_inf_iff]
        exact ⟨hjr, hju⟩
      rw [List.getElem?_eq_getElem hjz, List.getElem_zip]
      rw [List.getElem?_eq_getElem hjr] at hR
      rw [List.getElem?_eq_getElem hju] at hU
      rw [Option.some.injEq] at hR hU
      rw [hR, hU]

/-- Witness for C5: the spec round-trip example, with regex index 1 supplied
before regex index 0; a reordering of the pair stream yields the same
extracted sequence. -/
theorem extract_pattern_uris_ordered_by_index_witness :
    extract_pattern_uris sample_compile
      [(OsStr.valid "PU0", OsStr.valid "https0"), (OsStr.valid "PU1", OsStr.valid "https1"),
        (OsStr.valid "PR0", OsStr.valid "r0"), (OsStr.valid "PR1", OsStr.valid "r1")]
      "PU" "PR"
      = extract_pattern_uris sample_compile
      [(OsStr.valid "PR1", OsStr.valid "r1"), (OsStr.valid "PR0", OsStr.valid "r0"),
        (OsStr.valid "PU0", OsStr.valid "https0"), (OsStr.valid "PU1", OsStr.valid "https1")]
      "PU" "PR" :=
  (extract_pattern_uris_ordered_by_index sample_compile
    [(OsStr.valid "PR1", OsStr.valid "r1"), (OsStr.valid "PR0", OsStr.valid "r0"),
      (OsStr.valid "PU0", OsStr.valid "https0"), (OsStr.valid "PU1", OsStr.valid "https1")]
    "PU" "PR" (by decide) (by decide)).1
    [(OsStr.valid "PU0", OsStr.valid "https0"), (OsStr.valid "PU1", OsStr.valid "https1"),
      (OsStr.valid "PR0", OsStr.valid "r0"), (OsStr.valid "PR1", OsStr.valid "r1")]
    (by decide)

end Urshort
